import Mathlib

/-!
Shallow embedding of the NoiseLake applet
(src/software/o_c_REV/HEM_NoiseLake.ino, plus the two evolutionary
variants in src/unnamed/part_000) together with proofs about the
frozen claims C1..C10.

Machine integers are embedded as `Nat`/`Int` with explicit wrap-around
(`% 2^w`) at every store into a fixed-width C object.  C's `/` and `%`
on signed operands truncate toward zero, which is `Int.tdiv`/`Int.tmod`.
-/

namespace NoiseLake

/-- Value of an `int16_t` store: wrap an integer into [-32768, 32767]
(two's complement, mod 2^16). -/
def i16 (x : Int) : Int := (x + 32768) % 65536 - 32768

/-- The 16 low bits of an integer, as the unsigned (two's complement)
representation of an `int16_t`/`uint16_t`. -/
def u16 (x : Int) : Nat := (x % 65536).toNat

/-- Reinterpret a 16-bit unsigned value as a signed `int16_t`. -/
def i16ofU16 (n : Nat) : Int := if n < 32768 then (n : Int) else (n : Int) - 65536

/-- The 32 low bits of an integer (two's complement representation of an
`int`/`int32_t` on the target). -/
def u32 (x : Int) : Nat := (x % 4294967296).toNat

/-- Reinterpret a 32-bit unsigned value as a signed `int32_t`. -/
def i32ofU32 (n : Nat) : Int := if n < 2147483648 then (n : Int) else (n : Int) - 4294967296

/-- C bitwise `^` on (32-bit) `int` operands, two's complement. -/
def xor32 (x y : Int) : Int := i32ofU32 (u32 x ^^^ u32 y)

/-- Value of a `uint64_t` store. -/
def u64wrap (n : Nat) : Nat := n % 18446744073709551616

-- Constants of HEM_NoiseLake.ino.

def BNC_MAX_PARAM : Nat := 63
def NOISE_MODE_WHITE : Nat := 0
def NOISE_MODE_BITFLIP : Nat := 1
def NOISE_MODE_CRACKLE : Nat := 2
def NOISE_VALUE_MAX : Int := 2047
def FILTER_MODE_OFF : Nat := 0
def FSAMPLE_CHZ : Nat := 1666667
def CLK_PHI_MAX : Nat := 0xffff

/-- The `FREQ_SCALE[64]` table of HEM_NoiseLake.ino. -/
def FREQ_SCALE_LIST : List Nat :=
  [   50,    55,    60,    66,    72,    79,    87,    95,   105,
     115,   126,   138,   151,   166,   182,   199,   219,   240,
     263,   288,   316,   347,   380,   417,   457,   501,   550,
     603,   661,   725,   795,   872,   956,  1048,  1150,  1261,
    1382,  1516,  1662,  1823,  1999,  2192,  2404,  2636,  2891,
    3170,  3476,  3812,  4180,  4584,  5026,  5512,  6044,  6628,
    7269,  7971,  8741,  9585, 10511, 11526, 12639, 13860, 15199,
   16667]

/-- Indexed access to `FREQ_SCALE` (indices used by the code are always
clamped below 64, so the default is never read). -/
def FREQ_SCALE (i : Nat) : Nat := FREQ_SCALE_LIST.getD i 0

/-- `Parameter2Clk` of HEM_NoiseLake.ino: clamp the (uint8) parameter to
63 and look up `FREQ_SCALE`. -/
def Parameter2Clk (p : Nat) : Nat := FREQ_SCALE (if p < 64 then p else 63)

/-- Modelled from the spec: the Hemisphere base-class helper `Proportion`
is not under src/ (only its callers are); spec section 4.5 defines it as
`map(p, p_max, out_max) = (p * out_max) / p_max`. -/
def Proportion (num den maxv : Nat) : Nat := num * maxv / den

/-- `Parameter2Frequency` of HEM_NoiseLake.ino. -/
def Parameter2Frequency (p : Nat) : Nat := Proportion p BNC_MAX_PARAM 969 + 30

/-- `CLKSetCFreq` of HEM_NoiseLake.ino: `clk_dphi = (cfreq*CLK_PHI_MAX)/FSAMPLE_CHZ`
in `uint64_t` arithmetic. -/
def CLKSetCFreq (cfreq : Nat) : Nat := u64wrap (cfreq * CLK_PHI_MAX) / FSAMPLE_CHZ

/-- The two integrator states plus the two derived taps of
`TDSP::FilterStateVariable`.

Modelled from the spec: tiny_dsp.h is not under src/ (only its callers
are); spec section 4.3 gives the state as the persistent integrators
`lp`, `bp` with `hp` and `notch` derived on each `feed`. -/
structure FilterStateVariable where
  lp : Int
  bp : Int
  hp : Int
  no : Int
deriving Repr, DecidableEq

/-- Modelled from the spec: `TDSP::FilterStateVariable::feed` is not
under src/; spec section 4.3 gives its update order as
`delta = input - lp - q*bp; bp += f*delta; lp += f*bp;
hp = input - lp - q*bp; notch = hp + lp` (the coefficient
normalization from the raw frequency/resonance arguments is not
specified beyond this, so the passed values are used directly). -/
def feed (s : FilterStateVariable) (input f q : Int) : FilterStateVariable :=
  let delta := input - s.lp - q * s.bp
  let bp := s.bp + f * delta
  let lp := s.lp + f * bp
  let hp := input - lp - q * bp
  { lp := lp, bp := bp, hp := hp, no := hp + lp }

/-- The `FilterState` struct of HEM_NoiseLake.ino (per-channel UI state). -/
structure FilterState where
  f : Nat
  q : Nat
  mode : Nat
deriving Repr, DecidableEq

/-- The mutable state of one NoiseLake instance that the `Controller`
tick reads and writes (HEM_NoiseLake.ino).  `noiseA`/`noiseB` are the
two entries of the member array `_noise[2]`; `filterA`/`filterB` the
two `TDSP::FilterStateVariable` members; `sfA`/`sfB` the two
`state_filter` entries. -/
structure St where
  noise_mode : Nat
  clk_phi : Nat
  clk_dphi : Nat
  noise : Int
  noiseA : Int
  noiseB : Int
  filterA : FilterStateVariable
  filterB : FilterStateVariable
  sfA : FilterState
  sfB : FilterState
deriving Repr, DecidableEq

/-- The pseudo-random draws one `Controller` tick can consume.  Arduino
`random(lo, hi)` returns a value in `[lo, hi)`; theorems carry the
corresponding range hypotheses.  `eta` is `random(0, CLK_PHI_MAX)`,
`sgn` is `random(2)`, `bit` is `random(0, 12)`, `draw` is
`random(-NOISE_VALUE_MAX, NOISE_VALUE_MAX)`. -/
structure Rand where
  eta : Nat
  sgn : Nat
  bit : Nat
  draw : Int
deriving Repr, DecidableEq

/-- The burst amplitude computation of the Crackle branch
(HEM_NoiseLake.ino lines 70-73): `int16_t a = clk_dphi / eta` (unsigned
64-bit division truncated into an `int16_t`), clamp `a` above at 8,
apply a random sign, and scale by `NOISE_VALUE_MAX/8`.  Lean's `0` for
the `eta = 0` division stands in for the C undefined behaviour; the
divisor actually executed is exposed separately by `crackleDivisor`. -/
def crackleBurst (dphi eta sgn : Nat) : Int :=
  let a : Int := i16ofU16 (dphi / eta % 65536)
  let a : Int := if a > 8 then 8 else a
  let a : Int := i16 (a * (if sgn > 0 then 1 else -1))
  i16 ((a * NOISE_VALUE_MAX).tdiv 8)

/-- The divisor of the only division in the `Controller` tick path whose
divisor is not a compile-time constant: `clk_dphi / eta` on the Crackle
burst branch (HEM_NoiseLake.ino line 70), executed exactly when
`noise_mode == NOISE_MODE_CRACKLE` and `eta < clk_dphi`. -/
def crackleDivisor (s : St) (r : Rand) : Option Nat :=
  if s.noise_mode = NOISE_MODE_CRACKLE then
    if r.eta < s.clk_dphi then some r.eta else none
  else none

/-- The noise/clock half of `Controller` (HEM_NoiseLake.ino lines 66-92):
Crackle runs its own stochastic test every tick; the other modes advance
the phase accumulator and refresh `noise` on a wrap (BitFlip toggles one
of the low 12 bits of the biased value, otherwise a fresh draw). -/
def noiseStep (s : St) (r : Rand) : St :=
  if s.noise_mode = NOISE_MODE_CRACKLE then
    if r.eta < s.clk_dphi then
      { s with noise := crackleBurst s.clk_dphi r.eta r.sgn }
    else
      { s with noise := i16 ((s.noise * 3).tdiv 4) }
  else
    let phi := u64wrap (s.clk_phi + s.clk_dphi)
    if phi ≥ CLK_PHI_MAX then
      let phi := phi - CLK_PHI_MAX
      if s.noise_mode = NOISE_MODE_BITFLIP then
        let n := i16 (s.noise + NOISE_VALUE_MAX)
        let n := i16 (xor32 n ((1 <<< r.bit : Nat) : Int))
        let n := i16 (n - NOISE_VALUE_MAX)
        { s with clk_phi := phi, noise := n }
      else
        { s with clk_phi := phi, noise := i16 r.draw }
    else
      { s with clk_phi := phi }

/-- Tap selection of the `switch (state_filter[ch].mode)` statement.  For
a mode above 4 the C code leaves `signal[ch]` unset; the UI clamps the
mode to 0..4, so that branch is unreachable and modelled as 0. -/
def chanSignal (mode : Nat) (nch : Int) (f' : FilterStateVariable) : Int :=
  match mode with
  | 0 => nch
  | 1 => f'.lp
  | 2 => f'.bp
  | 3 => f'.hp
  | 4 => f'.no
  | _ => 0

/-- One channel of the `ForEachChannel` loop (HEM_NoiseLake.ino lines
94-121): gate-freeze of the noise sample, parameter mapping, one `feed`,
tap selection, and the emitted value `signal[ch]/2`.  Returns the new
`_noise[ch]`, the new filter state, and the emitted sample. -/
def chanStep (gate : Bool) (prev noiseNow : Int) (sf : FilterState)
    (fst : FilterStateVariable) : Int × FilterStateVariable × Int :=
  let nch := if gate then prev else noiseNow
  let freq : Int := (Parameter2Frequency sf.f : Int) * 100
  let q : Int := (Proportion sf.q BNC_MAX_PARAM 2020 : Int)
  let fst' := feed fst nch freq q
  let sig := i16 (chanSignal sf.mode nch fst')
  (nch, fst', sig.tdiv 2)

/-- One full `Controller` tick of HEM_NoiseLake.ino: the noise/clock
update followed by both channels.  `gA`/`gB` are the two `Gate(ch)`
reads; the result is the new state and the two `Out(ch, ...)` values. -/
def tick (s : St) (gA gB : Bool) (r : Rand) : St × Int × Int :=
  let s1 := noiseStep s r
  let cA := chanStep gA s.noiseA s1.noise s.sfA s.filterA
  let cB := chanStep gB s.noiseB s1.noise s.sfB s.filterB
  ({ s1 with noiseA := cA.1, noiseB := cB.1, filterA := cA.2.1, filterB := cB.2.1 },
   cA.2.2, cB.2.2)

/-- The noise sample fed to channel A's filter on a tick: the frozen
`_noise[0]` when the gate is high, else the freshly updated shared
noise value. -/
def fedNoiseA (s : St) (gA : Bool) (r : Rand) : Int :=
  if gA then s.noiseA else (noiseStep s r).noise

/-- The noise sample fed to channel B's filter on a tick. -/
def fedNoiseB (s : St) (gB : Bool) (r : Rand) : Int :=
  if gB then s.noiseB else (noiseStep s r).noise

/-- One advance of the phase accumulator (HEM_NoiseLake.ino lines 80-83):
add the increment in `uint64_t` arithmetic and subtract `CLK_PHI_MAX`
once when the sum reaches it. -/
def advance (phi dphi : Nat) : Nat :=
  let p := u64wrap (phi + dphi)
  if p ≥ CLK_PHI_MAX then p - CLK_PHI_MAX else p

/-- `WaveFolder` (identical in HEM_NoiseLake.ino lines 337-346 and both
part_000 variants): shift by `limit`, reduce modulo `2*limit` (C `%`,
truncating toward zero, is `Int.tmod`), take the absolute value, invert
when the truncated quotient is even, and unshift.  Every store into the
`int16_t` locals goes through `i16`. -/
def WaveFolder (signal limit : Int) : Int :=
  let s := i16 (signal + limit)
  let out := i16 (s.tmod (2 * limit))
  let out := if out < 0 then i16 (-out) else out
  let out := if (s.tdiv (2 * limit)).tmod 2 = 0 then i16 (2 * limit - out) else out
  i16 (out - limit)

/-- `n` consecutive phase advances. -/
def advanceN (phi dphi : Nat) : Nat → Nat
  | 0 => phi
  | n + 1 => advance (advanceN phi dphi n) dphi

/-- Number of wraps observed during `n` consecutive advances. -/
def wrapCountN (phi dphi : Nat) : Nat → Nat
  | 0 => 0
  | n + 1 =>
    wrapCountN phi dphi n +
      (if u64wrap (advanceN phi dphi n + dphi) ≥ CLK_PHI_MAX then 1 else 0)

namespace V2

/-- `NL_MAX_PARAM` of the second part_000 variant. -/
def NL_MAX_PARAM : Nat := 111

/-- The `CFREQ_SCALE[112]` table of the second part_000 variant
(frequencies in centihertz). -/
def CFREQ_SCALE_LIST : List Nat :=
  [   2750,    2914,    3087,    3270,    3465,    3671,    3889,
      4120,    4365,    4625,    4900,    5191,    5500,    5827,
      6174,    6541,    6930,    7342,    7778,    8241,    8731,
      9250,    9800,   10383,   11000,   11654,   12347,   13081,
     13859,   14683,   15556,   16481,   17461,   18500,   19600,
     20765,   22000,   23308,   24694,   26163,   27718,   29366,
     31113,   32963,   34923,   36999,   39200,   41530,   44000,
     46616,   49388,   52325,   55437,   58733,   62225,   65926,
     69846,   73999,   78399,   83061,   88000,   93233,   98777,
    104650,  110873,  117466,  124451,  131851,  139691,  147998,
    156798,  166122,  176000,  186466,  197553,  209300,  221746,
    234932,  248902,  263702,  279383,  295996,  313596,  332244,
    352000,  372931,  395107,  418601,  443492,  469864,  497803,
    527404,  558765,  591991,  627193,  664488,  704000,  745862,
    790213,  837202,  886984,  939727,  995606, 1054808, 1117530,
   1183982, 1254385, 1328975, 1408000, 1491724, 1580427, 1666667]

/-- Indexed access to `CFREQ_SCALE` (the code clamps every index below
112, so the default is never read). -/
def CFREQ_SCALE (i : Nat) : Nat := CFREQ_SCALE_LIST.getD i 0

/-- `CFREQ_SCALE_IDX_C7` of the second part_000 variant. -/
def CFREQ_SCALE_IDX_C7 : Nat := 75

/-- `Parameter2Frequency` of the second part_000 variant: clamp the
parameter to `CFREQ_SCALE_IDX_C7` and look up `CFREQ_SCALE`. -/
def Parameter2Frequency (p : Nat) : Nat :=
  CFREQ_SCALE (if p > CFREQ_SCALE_IDX_C7 then CFREQ_SCALE_IDX_C7 else p)

/-- `Parameter2Clk` of the second part_000 variant: clamp the parameter
to 111 and look up `CFREQ_SCALE`. -/
def Parameter2Clk (p : Nat) : Nat := CFREQ_SCALE (if p < 112 then p else 111)

/-- The `FOLDCURVE[64]` table of the second part_000 variant. -/
def FOLDCURVE_LIST : List Int :=
  [    0,   406,   796,  1154,  1466,  1720,  1906,  2017,  2047,
    1997,  1867,  1663,  1393,  1068,   700,   305,  -102,  -505,
    -889, -1237, -1536, -1774, -1941, -2032, -2042, -1971, -1822,
   -1601, -1316,  -979,  -604,  -204,   204,   604,   979,  1316,
    1601,  1822,  1971,  2042,  2032,  1941,  1774,  1536,  1237,
     889,   505,   102,  -305,  -610,  -802,  -892,  -894,  -830,
    -719,  -582,  -439,  -305,  -191,  -104,   -46,   -14,     0,
       0]

/-- Indexed access to `FOLDCURVE` (the code clamps every index to at
most 63, so the default is never read). -/
def FOLDCURVE (i : Nat) : Int := FOLDCURVE_LIST.getD i 0

/-- `FOLDCURVE_N` of the second part_000 variant. -/
def FOLDCURVE_N : Nat := 64

/-- `InterpolationFolder` of the second part_000 variant (part_000 lines
641-659): piecewise-linear interpolation over `FOLDCURVE` with bucket
width `dx = 4*(NOISE_VALUE_MAX+1)/FOLDCURVE_N = 128`, mirrored lookup
for negative inputs.  The `uint8_t i` store is `% 256` (its operand
`x/dx` resp. `-1*x/dx` is nonnegative on the branch that computes it);
`FOLDCURVE_N` promotes to `int` in the index clamp.  The products and
the sum fit `int32_t` for every `int16_t` input, so `y` needs no wrap;
the final store into the returned `int16_t` goes through `i16`. -/
def InterpolationFolder (x : Int) : Int :=
  let dx : Int := (4 * (NOISE_VALUE_MAX + 1)).tdiv (FOLDCURVE_N : Int)
  if 0 ≤ x then
    let i : Int := (x.tdiv dx) % 256
    let i : Int := if i < (FOLDCURVE_N : Int) - 1 then i else (FOLDCURVE_N : Int) - 2
    i16 ((FOLDCURVE i.toNat * ((i + 1) * dx - x) +
          FOLDCURVE (i.toNat + 1) * (x - i * dx)).tdiv dx)
  else
    let i : Int := ((-1 * x).tdiv dx) % 256
    let i : Int := if i < (FOLDCURVE_N : Int) - 1 then i else (FOLDCURVE_N : Int) - 2
    i16 ((-1 * FOLDCURVE i.toNat * ((i + 1) * dx + x) +
          FOLDCURVE (i.toNat + 1) * (x + i * dx)).tdiv dx)

/-- `NOISE_MODE_LINEIN` of the second part_000 variant. -/
def NOISE_MODE_LINEIN : Nat := 3

/-- The noise-generation state of the second part_000 variant's single
voice: `noise_mode`, the `uint64_t` phase accumulator, and the
`int16_t` shared noise member. -/
structure NoiseSt where
  noise_mode : Nat
  clk_phi : Nat
  clk_dphi : Nat
  noise : Int
deriving Repr, DecidableEq

/-- The external inputs one tick of the second part_000 variant can
consume: the random draws (as in `Rand`) plus `linein`.

`linein` is modelled from the spec: the LineIn branch reads
`Proportion(In(0), HEMISPHERE_MAX_CV, NOISE_VALUE_MAX)` whose
collaborators `In` and `HEMISPHERE_MAX_CV` are not under src/; spec
section 4.2 says LineIn samples an external input and rescales its
full-scale range onto the noise amplitude range, so the rescaled sample
is taken as an input. -/
structure TickIn where
  eta : Nat
  sgn : Nat
  bit : Nat
  draw : Int
  linein : Int
deriving Repr, DecidableEq

/-- The noise/clock half of the second part_000 variant's `Controller`
(part_000 lines 332-360): identical to HEM_NoiseLake.ino's except for
the extra LineIn branch on a wrap. -/
def noiseUpdate (s : NoiseSt) (r : TickIn) : NoiseSt :=
  if s.noise_mode = NOISE_MODE_CRACKLE then
    if r.eta < s.clk_dphi then
      { s with noise := crackleBurst s.clk_dphi r.eta r.sgn }
    else
      { s with noise := i16 ((s.noise * 3).tdiv 4) }
  else
    let phi := u64wrap (s.clk_phi + s.clk_dphi)
    if phi ≥ CLK_PHI_MAX then
      let phi := phi - CLK_PHI_MAX
      if s.noise_mode = NOISE_MODE_BITFLIP then
        let n := i16 (s.noise + NOISE_VALUE_MAX)
        let n := i16 (xor32 n ((1 <<< r.bit : Nat) : Int))
        let n := i16 (n - NOISE_VALUE_MAX)
        { s with clk_phi := phi, noise := n }
      else if s.noise_mode = NOISE_MODE_LINEIN then
        { s with clk_phi := phi, noise := i16 r.linein }
      else
        { s with clk_phi := phi, noise := i16 r.draw }
    else
      { s with clk_phi := phi }

/-- The noise sample fed to the filter on one tick of the second
part_000 variant's `Controller` (part_000 lines 362-367): the comment
"Freeze on postive gate" is not accompanied by any code there — `Gate`
is never read — and `filter.feed(noise, freq, q)` always receives the
freshly updated shared noise member.  The `gate` argument records what
the channel's gate input reads on this tick; the definition ignores it
exactly as the source does. -/
def fedNoise (s : NoiseSt) (gate : Bool) (r : TickIn) : Int :=
  (noiseUpdate s r).noise

end V2

namespace V1

/-- `NOISE_VALUE_MAX` of the first part_000 variant (line 28). -/
def NOISE_VALUE_MAX : Int := 4095

/-- Value of a `uint32_t` store (the first part_000 variant's
`clk_phi`/`clk_dphi` are `uint32_t`, lines 187-188). -/
def u32wrap (n : Nat) : Nat := n % 4294967296

/-- The noise/clock half of the first part_000 variant's `Controller`
(part_000 lines 68-79): the phase accumulator advances and wraps, and
then — on every tick, wrap or not — the noise is refreshed: BitFlip
XORs one pseudo-random low bit directly into the unbiased `int16_t`
noise (`noise ^= (1 << random(0, 12))`, lines 75-76; there is no
bias-XOR-unbias), otherwise a fresh draw from `[0, NOISE_VALUE_MAX)`.
Returns the new phase and the new noise value. -/
def noiseUpdate (noise_mode : Nat) (clk_phi clk_dphi : Nat) (noise : Int)
    (bit : Nat) (draw : Int) : Nat × Int :=
  let phi := u32wrap (clk_phi + clk_dphi)
  let phi := if phi ≥ CLK_PHI_MAX then phi - CLK_PHI_MAX else phi
  let noise' :=
    if noise_mode = NOISE_MODE_BITFLIP then
      i16 (xor32 noise ((1 <<< bit : Nat) : Int))
    else
      i16 draw
  (phi, noise')

end V1

-- Shared helper lemmas.

theorem i16_eq_self {x : Int} (h1 : -32768 ≤ x) (h2 : x ≤ 32767) : i16 x = x := by
  unfold i16; omega

theorem i16_range (x : Int) : -32768 ≤ i16 x ∧ i16 x ≤ 32767 := by
  unfold i16; omega

theorem neg_tmod_left (a b : Int) : (-a).tmod b = -(a.tmod b) := by
  rw [Int.tmod_def, Int.tmod_def, Int.neg_tdiv]
  ring

theorem tmod_bounds (a : Int) {b : Int} (hb : 0 < b) : -b < a.tmod b ∧ a.tmod b < b := by
  constructor
  · have h := Int.tmod_lt_of_pos (-a) hb
    rw [neg_tmod_left] at h
    omega
  · exact Int.tmod_lt_of_pos a hb

/-- Claim C1 (code bug): the divisor of `clk_dphi / eta` on the Crackle
burst branch is not clamped and can be zero.  With the Crackle mode
selected and the clock increment that `Start` installs
(`CLKSetCFreq FSAMPLE_CHZ = 65535`), the draw `eta = 0` is valid
(Arduino `random(0, CLK_PHI_MAX)` ranges over `[0, CLK_PHI_MAX)`) and
satisfies `eta < clk_dphi`, so the Controller executes the division
with divisor 0, contradicting the claim that every executed divisor is
a compile-time constant or clamped to at least 1. -/
theorem crackle_division_by_zero :
    CLKSetCFreq FSAMPLE_CHZ = 65535 ∧ 0 < CLK_PHI_MAX ∧
    crackleDivisor
      { noise_mode := NOISE_MODE_CRACKLE, clk_phi := 0, clk_dphi := 65535,
        noise := 0, noiseA := 0, noiseB := 0,
        filterA := ⟨0, 0, 0, 0⟩, filterB := ⟨0, 0, 0, 0⟩,
        sfA := ⟨32, 32, 1⟩, sfB := ⟨32, 32, 2⟩ }
      ⟨0, 0, 0, 0⟩ = some 0 := by
  decide

/-- Claim C2 amended, for HEM_NoiseLake.ino where `_noise[2]` is a
member array: on every tick the sample fed to a channel's filter is the
frozen `_noise[ch]` when that channel's gate is high — which is exactly
the sample fed to that channel on the previous tick, whatever this
tick's noise update and random draws do — and the freshly updated
shared noise value when the gate is low.  (The claim as stated fails on
the cited part_000 variants; see the counterexample.) -/
theorem gate_freeze_feeds_previous_sample (s : St) (gA gB : Bool) (r r2 : Rand) :
    fedNoiseA (tick s gA gB r).1 true r2 = fedNoiseA s gA r ∧
    fedNoiseB (tick s gA gB r).1 true r2 = fedNoiseB s gB r ∧
    fedNoiseA (tick s gA gB r).1 false r2 = (noiseStep (tick s gA gB r).1 r2).noise ∧
    fedNoiseB (tick s gA gB r).1 false r2 = (noiseStep (tick s gA gB r).1 r2).noise := by
  refine ⟨?_, ?_, ?_, ?_⟩ <;> simp [tick, chanStep, fedNoiseA, fedNoiseB]

/-- Claim C10: every Controller tick applies `feed` exactly once per
channel — the post-tick filter state is one `feed` of the pre-tick
state at the gated noise sample and the mapped frequency/resonance —
for every filter mode, including Off; and `feed` does move the
integrator state (shown at a concrete input). -/
theorem feed_called_once_per_channel_every_mode (s : St) (gA gB : Bool) (r : Rand) :
    (tick s gA gB r).1.filterA =
      feed s.filterA (fedNoiseA s gA r)
        ((Parameter2Frequency s.sfA.f : Int) * 100)
        ((Proportion s.sfA.q BNC_MAX_PARAM 2020 : Int)) ∧
    (tick s gA gB r).1.filterB =
      feed s.filterB (fedNoiseB s gB r)
        ((Parameter2Frequency s.sfB.f : Int) * 100)
        ((Proportion s.sfB.q BNC_MAX_PARAM 2020 : Int)) ∧
    (feed { lp := 0, bp := 0, hp := 0, no := 0 } 1000 2 3).bp ≠ (0 : Int) := by
  refine ⟨?_, ?_, ?_⟩
  · simp [tick, chanStep, fedNoiseA]
  · simp [tick, chanStep, fedNoiseB]
  · decide

theorem advanceN_wrapCountN_spec (phi dphi : Nat) (hphi : phi < CLK_PHI_MAX)
    (hdphi : dphi ≤ CLK_PHI_MAX) :
    ∀ n, advanceN phi dphi n = (phi + n * dphi) % CLK_PHI_MAX ∧
      wrapCountN phi dphi n = (phi + n * dphi) / CLK_PHI_MAX := by
  intro n
  induction n with
  | zero =>
    simp only [advanceN, wrapCountN, Nat.zero_mul, Nat.add_zero]
    simp only [CLK_PHI_MAX] at hphi ⊢
    omega
  | succ n ih =>
    obtain ⟨ha, hw⟩ := ih
    simp only [advanceN, wrapCountN, advance, u64wrap, ha, hw, Nat.succ_mul]
    simp only [CLK_PHI_MAX] at hphi hdphi ⊢
    have hmod : (phi + n * dphi) % 65535 + dphi < 18446744073709551616 := by omega
    simp only [Nat.mod_eq_of_lt hmod]
    split_ifs with h <;> omega

/-- Claim C3: with `0 <= clk_phi < CLK_PHI_MAX` and an increment obtained
from `CLKSetCFreq` at a rate of at most `FSAMPLE_CHZ` (hence
`clk_dphi <= CLK_PHI_MAX`), one clock advance of the Controller
re-establishes `clk_phi < CLK_PHI_MAX` (nonnegativity is inherent in the
unsigned embedding); a wrap carries the residual `sum - CLK_PHI_MAX`
forward; and over `n` consecutive advances the number of wraps is
`floor((clk_phi + n*clk_dphi)/CLK_PHI_MAX)`, the exact-count form of the
long-run average wrap rate `clk_dphi/CLK_PHI_MAX` per tick. -/
theorem clock_advance_invariant_and_wrap_rate (phi dphi cfreq n : Nat) (s : St)
    (gA gB : Bool) (r : Rand)
    (hphi : phi < CLK_PHI_MAX) (hdphi : dphi ≤ CLK_PHI_MAX)
    (hcf : cfreq ≤ FSAMPLE_CHZ) (hm : s.noise_mode ≠ NOISE_MODE_CRACKLE)
    (h1 : s.clk_phi = phi) (h2 : s.clk_dphi = dphi) :
    CLKSetCFreq cfreq ≤ CLK_PHI_MAX ∧
    advance phi dphi < CLK_PHI_MAX ∧
    (CLK_PHI_MAX ≤ phi + dphi → advance phi dphi = phi + dphi - CLK_PHI_MAX) ∧
    advanceN phi dphi n = (phi + n * dphi) % CLK_PHI_MAX ∧
    wrapCountN phi dphi n = (phi + n * dphi) / CLK_PHI_MAX ∧
    (tick s gA gB r).1.clk_phi = advance phi dphi := by
  refine ⟨?_, ?_, ?_, (advanceN_wrapCountN_spec phi dphi hphi hdphi n).1,
    (advanceN_wrapCountN_spec phi dphi hphi hdphi n).2, ?_⟩
  · simp only [CLKSetCFreq, u64wrap, CLK_PHI_MAX, FSAMPLE_CHZ] at hcf ⊢
    rw [Nat.mod_eq_of_lt (by omega : cfreq * 65535 < 18446744073709551616)]
    omega
  · simp only [advance, u64wrap, CLK_PHI_MAX] at hphi hdphi ⊢
    split_ifs with h <;> omega
  · simp only [advance, u64wrap, CLK_PHI_MAX] at hphi hdphi ⊢
    intro h
    split_ifs with h' <;> omega
  · simp only [tick, noiseStep, chanStep, hm, if_neg, h1, h2, advance]
    have hmode : ¬ s.noise_mode = NOISE_MODE_CRACKLE := hm
    simp [hmode, apply_ite St.clk_phi]


theorem bitflip_chain_eq (v : Int) (bit : Nat) (hb : bit < 12)
    (h1 : -2047 ≤ v) (h2 : v ≤ 2048) :
    i16 (i16 (xor32 (i16 (v + NOISE_VALUE_MAX)) ((1 <<< bit : Nat) : Int)) - NOISE_VALUE_MAX)
      = (((v + 2047).toNat ^^^ (1 <<< bit) : Nat) : Int) - 2047 ∧
    ((v + 2047).toNat ^^^ (1 <<< bit)) < 4096 := by
  simp only [NOISE_VALUE_MAX]
  have hk : (1 <<< bit) < 4096 := by
    have h12 : (2 : Nat) ^ bit < 2 ^ 12 := Nat.pow_lt_pow_right (by norm_num) hb
    simpa [Nat.shiftLeft_eq] using h12
  have hb1 : i16 (v + 2047) = v + 2047 := i16_eq_self (by omega) (by omega)
  have hbv : ((v + 2047).toNat : Int) = v + 2047 := Int.toNat_of_nonneg (by omega)
  have hblt : (v + 2047).toNat < 4096 := by omega
  have hm : (v + 2047).toNat ^^^ (1 <<< bit) < 4096 := by
    have := Nat.xor_lt_two_pow (n := 12) (by simpa using hblt) (by simpa using hk)
    simpa using this
  refine ⟨?_, hm⟩
  rw [hb1]
  have hu1 : u32 (v + 2047) = (v + 2047).toNat := by
    unfold u32
    rw [Int.emod_eq_of_lt (by omega) (by omega)]
  have hu2 : u32 ((1 <<< bit : Nat) : Int) = 1 <<< bit := by
    unfold u32
    have hcast2 : ((1 <<< bit : Nat) : Int) < 4294967296 := by
      exact_mod_cast hk.trans (show (4096 : Nat) < 4294967296 by norm_num)
    rw [Int.emod_eq_of_lt (Int.natCast_nonneg _) hcast2]
    simp
  unfold xor32
  rw [hu1, hu2]
  unfold i32ofU32
  rw [if_pos (hm.trans (by norm_num))]
  have hin : i16 (((v + 2047).toNat ^^^ (1 <<< bit) : Nat) : Int)
      = (((v + 2047).toNat ^^^ (1 <<< bit) : Nat) : Int) :=
    i16_eq_self (by omega) (by omega)
  rw [hin]
  exact i16_eq_self (by omega) (by omega)

theorem noiseStep_bitflip (s : St) (r : Rand)
    (hm : s.noise_mode = NOISE_MODE_BITFLIP)
    (hphi : s.clk_phi < CLK_PHI_MAX) (hdphi : s.clk_dphi ≤ 65536)
    (hw : CLK_PHI_MAX ≤ s.clk_phi + s.clk_dphi) :
    (noiseStep s r).noise =
      i16 (i16 (xor32 (i16 (s.noise + NOISE_VALUE_MAX)) ((1 <<< r.bit : Nat) : Int))
        - NOISE_VALUE_MAX) := by
  unfold noiseStep u64wrap
  rw [if_neg (by simp [hm, NOISE_MODE_BITFLIP, NOISE_MODE_CRACKLE])]
  simp only [CLK_PHI_MAX] at hphi hw ⊢
  rw [Nat.mod_eq_of_lt (by omega)]
  rw [if_pos (by omega)]
  rw [if_pos hm]

/-- Claim C4 amended, for HEM_NoiseLake.ino's biased bias-XOR-unbias
implementation: in BitFlip mode, a tick whose clock wraps replaces the
noise value so that its biased nonnegative representation
(`value + NOISE_VALUE_MAX`) differs from the predecessor's in exactly
one of the low 12 bits: their XOR is the single bit `1 <<< bit` chosen
by `random(0, 12)`, and the value does change.  (The claim as stated
fails on the first part_000 variant's unbiased BitFlip; see the
counterexample.) -/
theorem bitflip_changes_exactly_one_bit (s : St) (gA gB : Bool) (r : Rand)
    (hm : s.noise_mode = NOISE_MODE_BITFLIP) (hb : r.bit < 12)
    (hn1 : -2047 ≤ s.noise) (hn2 : s.noise ≤ 2048)
    (hphi : s.clk_phi < CLK_PHI_MAX) (hdphi : s.clk_dphi ≤ 65536)
    (hw : CLK_PHI_MAX ≤ s.clk_phi + s.clk_dphi) :
    ((tick s gA gB r).1.noise + NOISE_VALUE_MAX).toNat ^^^ (s.noise + NOISE_VALUE_MAX).toNat
      = 1 <<< r.bit ∧
    1 <<< r.bit < 4096 ∧
    (tick s gA gB r).1.noise ≠ s.noise := by
  have htick : (tick s gA gB r).1.noise = (noiseStep s r).noise := by
    simp [tick]
  obtain ⟨heq, hlt⟩ := bitflip_chain_eq s.noise r.bit hb hn1 hn2
  have hnoise : (tick s gA gB r).1.noise
      = (((s.noise + 2047).toNat ^^^ (1 <<< r.bit) : Nat) : Int) - 2047 := by
    rw [htick, noiseStep_bitflip s r hm hphi hdphi hw]
    exact heq
  have hbv : ((s.noise + 2047).toNat : Int) = s.noise + 2047 := Int.toNat_of_nonneg (by omega)
  have hk : 0 < 1 <<< r.bit := by
    rw [Nat.shiftLeft_eq]
    positivity
  have hXOR : ((tick s gA gB r).1.noise + NOISE_VALUE_MAX).toNat
      = (s.noise + 2047).toNat ^^^ (1 <<< r.bit) := by
    rw [hnoise]
    simp only [NOISE_VALUE_MAX]
    omega
  have hcancel : ((s.noise + 2047).toNat ^^^ (1 <<< r.bit)) ^^^ (s.noise + 2047).toNat
      = 1 <<< r.bit := by
    rw [Nat.xor_comm ((s.noise + 2047).toNat) (1 <<< r.bit), Nat.xor_assoc]
    simp
  refine ⟨?_, ?_, ?_⟩
  · rw [hXOR]
    simp only [NOISE_VALUE_MAX]
    exact hcancel
  · have h12 : (2 : Nat) ^ r.bit < 2 ^ 12 := Nat.pow_lt_pow_right (by norm_num) hb
    simpa [Nat.shiftLeft_eq] using h12
  · intro hcontra
    have heqn : (s.noise + 2047).toNat ^^^ (1 <<< r.bit) = (s.noise + 2047).toNat := by
      rw [← hXOR, hcontra]
      simp only [NOISE_VALUE_MAX]
    rw [heqn, Nat.xor_self] at hcancel
    omega

/-- Witness for C4 at a concrete state: BitFlip from noise 5 with bit 3
on a wrapping tick. -/
theorem bitflip_changes_exactly_one_bit_witness :
    ((tick ⟨1, 0, 65535, 5, 0, 0, ⟨0, 0, 0, 0⟩, ⟨0, 0, 0, 0⟩, ⟨32, 32, 1⟩, ⟨32, 32, 2⟩⟩
        false false ⟨0, 0, 3, 0⟩).1.noise + NOISE_VALUE_MAX).toNat ^^^
      ((5 : Int) + NOISE_VALUE_MAX).toNat = 1 <<< 3 := by
  have h := bitflip_changes_exactly_one_bit
    ⟨1, 0, 65535, 5, 0, 0, ⟨0, 0, 0, 0⟩, ⟨0, 0, 0, 0⟩, ⟨32, 32, 1⟩, ⟨32, 32, 2⟩⟩
    false false ⟨0, 0, 3, 0⟩ (by decide) (by decide) (by decide) (by decide)
    (by decide) (by decide) (by decide)
  exact h.1

/-- Claim C5 is false as stated: the noise value does not stay within
`[-NOISE_VALUE_MAX, NOISE_VALUE_MAX]` across every tick.  (i) In BitFlip
mode, from `noise = 2047` a wrapping tick that flips bit 0 yields 2048.
(ii) In Crackle mode, from `noise = 0` with the reachable increment
`clk_dphi = CLKSetCFreq (Parameter2Clk 62 * 100) = 59763` and the valid
draw `eta = 1`, the unclamped `int16_t` truncation of `clk_dphi/eta`
makes the burst computation produce 30162, far outside the range. -/
theorem noise_range_counterexample :
    (tick ⟨1, 0, 65535, 2047, 0, 0, ⟨0, 0, 0, 0⟩, ⟨0, 0, 0, 0⟩, ⟨32, 32, 1⟩, ⟨32, 32, 2⟩⟩
        false false ⟨0, 0, 0, 0⟩).1.noise = 2048 ∧
    ¬ ((2048 : Int) ≤ NOISE_VALUE_MAX) ∧
    CLKSetCFreq (Parameter2Clk 62 * 100) = 59763 ∧
    (tick ⟨2, 0, 59763, 0, 0, 0, ⟨0, 0, 0, 0⟩, ⟨0, 0, 0, 0⟩, ⟨32, 32, 1⟩, ⟨32, 32, 2⟩⟩
        false false ⟨1, 1, 0, 0⟩).1.noise = 30162 ∧
    ¬ ((30162 : Int) ≤ NOISE_VALUE_MAX) := by
  refine ⟨by decide, by decide, by decide, by decide, by decide⟩

/-- Claim C5 amended: on every tick whose noise update is not a Crackle
burst (that is, any mode other than Crackle, or a Crackle tick whose
draw `eta` is at least `clk_dphi`), a noise value in
`[-NOISE_VALUE_MAX, NOISE_VALUE_MAX + 1]` stays in that interval: White
draws land in `[-2047, 2046]`, a BitFlip toggle keeps the biased value
within 12 bits (so the value within `[-2047, 2048]`), and the Crackle
geometric decay contracts toward zero.  The Crackle burst path carries
no such bound (see the counterexample). -/
theorem noise_stays_in_extended_range (s : St) (gA gB : Bool) (r : Rand)
    (hn1 : -2047 ≤ s.noise) (hn2 : s.noise ≤ 2048)
    (hnb : s.noise_mode ≠ NOISE_MODE_CRACKLE ∨ s.clk_dphi ≤ r.eta)
    (hb : r.bit < 12) (hd1 : -2047 ≤ r.draw) (hd2 : r.draw ≤ 2046) :
    -2047 ≤ (tick s gA gB r).1.noise ∧ (tick s gA gB r).1.noise ≤ 2048 := by
  have htick : (tick s gA gB r).1.noise = (noiseStep s r).noise := by
    simp [tick]
  rw [htick]
  by_cases hc : s.noise_mode = NOISE_MODE_CRACKLE
  · have hne : ¬ r.eta < s.clk_dphi := by
      rcases hnb with h | h
      · exact absurd hc h
      · omega
    unfold noiseStep
    rw [if_pos hc, if_neg hne]
    have hdecay : -1536 ≤ (s.noise * 3).tdiv 4 ∧ (s.noise * 3).tdiv 4 ≤ 1536 := by
      rcases le_or_lt 0 s.noise with hpos | hneg
      · have h0 : (0 : Int) ≤ s.noise * 3 := mul_nonneg hpos (by norm_num)
        rw [Int.tdiv_eq_ediv h0 (by norm_num)]
        refine ⟨le_trans (by norm_num) (Int.ediv_nonneg h0 (by norm_num)), ?_⟩
        have hle : s.noise * 3 ≤ 6144 := by omega
        have hdd := Int.ediv_le_ediv (by norm_num : (0 : Int) < 4) hle
        norm_num at hdd
        omega
      · have h0 : (0 : Int) ≤ -(s.noise * 3) := by nlinarith
        have hneg_eq : (s.noise * 3).tdiv 4 = -((-(s.noise * 3)).tdiv 4) := by
          rw [Int.neg_tdiv, neg_neg]
        rw [hneg_eq, Int.tdiv_eq_ediv h0 (by norm_num)]
        have hle : -(s.noise * 3) ≤ 6141 := by omega
        have hdd := Int.ediv_le_ediv (by norm_num : (0 : Int) < 4) hle
        have hge := Int.ediv_nonneg h0 (by norm_num : (0 : Int) ≤ 4)
        norm_num at hdd
        omega
    dsimp only
    rw [i16_eq_self (by omega) (by omega)]
    omega
  · unfold noiseStep
    rw [if_neg hc]
    by_cases hwrap : u64wrap (s.clk_phi + s.clk_dphi) ≥ CLK_PHI_MAX
    · rw [if_pos hwrap]
      by_cases hm1 : s.noise_mode = NOISE_MODE_BITFLIP
      · rw [if_pos hm1]
        obtain ⟨heq, hlt⟩ := bitflip_chain_eq s.noise r.bit hb hn1 hn2
        dsimp only
        rw [heq]
        omega
      · rw [if_neg hm1]
        dsimp only
        rw [i16_eq_self (by omega) (by omega)]
        omega
    · rw [if_neg hwrap]
      dsimp only
      omega

/-- Witness for the amended C5 at a concrete state: a Crackle decay tick
from noise 2048. -/
theorem noise_stays_in_extended_range_witness :
    -2047 ≤ (tick ⟨2, 0, 65535, 2048, 0, 0, ⟨0, 0, 0, 0⟩, ⟨0, 0, 0, 0⟩, ⟨32, 32, 1⟩,
        ⟨32, 32, 2⟩⟩ false false ⟨65535, 0, 0, 0⟩).1.noise ∧
    (tick ⟨2, 0, 65535, 2048, 0, 0, ⟨0, 0, 0, 0⟩, ⟨0, 0, 0, 0⟩, ⟨32, 32, 1⟩,
        ⟨32, 32, 2⟩⟩ false false ⟨65535, 0, 0, 0⟩).1.noise ≤ 2048 :=
  noise_stays_in_extended_range
    ⟨2, 0, 65535, 2048, 0, 0, ⟨0, 0, 0, 0⟩, ⟨0, 0, 0, 0⟩, ⟨32, 32, 1⟩, ⟨32, 32, 2⟩⟩
    false false ⟨65535, 0, 0, 0⟩ (by decide) (by decide) (Or.inr (by decide))
    (by decide) (by decide) (by decide)

/-- Claim C9: when a channel's filter mode is Off, the sample that the
Controller emits on that channel is the channel's gated noise sample
divided by 2 with C truncation (`Int.tdiv`), with no dependence on the
filter's integrator state or the mapped frequency/resonance (the
right-hand side mentions neither); and with the maximum clock rate
parameter 63 the increment is `CLKSetCFreq (Parameter2Clk 63 * 100) =
65536 > CLK_PHI_MAX`, so in White mode with a low gate every tick wraps
and the emitted sample is the fresh raw draw, halved. -/
theorem filter_off_emits_half_noise (s : St) (gA gB : Bool) (r : Rand)
    (hA : s.sfA.mode = FILTER_MODE_OFF)
    (hlo : -32768 ≤ fedNoiseA s gA r) (hhi : fedNoiseA s gA r ≤ 32767) :
    (tick s gA gB r).2.1 = (fedNoiseA s gA r).tdiv 2 ∧
    (s.sfB.mode = FILTER_MODE_OFF → -32768 ≤ fedNoiseB s gB r → fedNoiseB s gB r ≤ 32767 →
      (tick s gA gB r).2.2 = (fedNoiseB s gB r).tdiv 2) ∧
    CLKSetCFreq (Parameter2Clk 63 * 100) = 65536 ∧
    (s.noise_mode = NOISE_MODE_WHITE → s.clk_dphi = 65536 → s.clk_phi < CLK_PHI_MAX →
      gA = false → -2047 ≤ r.draw → r.draw ≤ 2046 →
      (tick s gA gB r).2.1 = r.draw.tdiv 2) := by
  have hmain : (tick s gA gB r).2.1 = (fedNoiseA s gA r).tdiv 2 := by
    have h1 : (tick s gA gB r).2.1 = (i16 (fedNoiseA s gA r)).tdiv 2 := by
      simp [tick, chanStep, fedNoiseA, hA, FILTER_MODE_OFF, chanSignal]
    rw [h1, i16_eq_self hlo hhi]
  refine ⟨hmain, ?_, by decide, ?_⟩
  · intro hB hlo2 hhi2
    have h1 : (tick s gA gB r).2.2 = (i16 (fedNoiseB s gB r)).tdiv 2 := by
      simp [tick, chanStep, fedNoiseB, hB, FILTER_MODE_OFF, chanSignal]
    rw [h1, i16_eq_self hlo2 hhi2]
  · intro hmode hdphi hphi hgA hd1 hd2
    have hfed : fedNoiseA s gA r = r.draw := by
      unfold fedNoiseA
      rw [hgA]
      simp only [Bool.false_eq_true, if_false]
      unfold noiseStep u64wrap
      rw [if_neg (by simp [hmode, NOISE_MODE_WHITE, NOISE_MODE_CRACKLE])]
      rw [hdphi]
      simp only [CLK_PHI_MAX] at hphi ⊢
      rw [Nat.mod_eq_of_lt (by omega)]
      rw [if_pos (by omega)]
      rw [if_neg (by simp [hmode, NOISE_MODE_WHITE, NOISE_MODE_BITFLIP])]
      dsimp only
      exact i16_eq_self (by omega) (by omega)
    rw [hmain, hfed]

/-- Witness for C9 at a concrete state: Off-mode channel A with a low
gate, White noise, increment 65536, draw 300 emits 150. -/
theorem filter_off_emits_half_noise_witness :
    (tick ⟨0, 0, 65536, 5, 100, 7, ⟨0, 0, 0, 0⟩, ⟨0, 0, 0, 0⟩, ⟨32, 32, 0⟩, ⟨32, 32, 0⟩⟩
      false false ⟨0, 0, 0, 300⟩).2.1 = 150 := by
  have h := (filter_off_emits_half_noise
    ⟨0, 0, 65536, 5, 100, 7, ⟨0, 0, 0, 0⟩, ⟨0, 0, 0, 0⟩, ⟨32, 32, 0⟩, ⟨32, 32, 0⟩⟩
    false false ⟨0, 0, 0, 300⟩ (by decide) (by decide) (by decide)).1
  rw [h]
  decide

theorem getD_mem_of_lt {α : Type} (l : List α) (i : Nat) (d : α) (h : i < l.length) :
    l.getD i d ∈ l := by
  rw [List.getD_eq_getElem?_getD, List.getElem?_eq_getElem h]
  exact List.getElem_mem h

theorem table_mono (T : Nat → Nat) (N : Nat) (hadj : ∀ i, i < N → T i ≤ T (i + 1)) :
    ∀ {i j : Nat}, i ≤ j → j ≤ N → T i ≤ T j := by
  intro i j hij hjN
  induction j with
  | zero =>
    have hi0 : i = 0 := by omega
    rw [hi0]
  | succ m ih =>
    rcases Nat.lt_or_ge i (m + 1) with hlt | hge
    · exact Nat.le_trans (ih (by omega) (by omega)) (hadj m (by omega))
    · have hieq : i = m + 1 := by omega
      rw [hieq]

theorem freqScale_adjacent : ∀ i, i < 63 → FREQ_SCALE i ≤ FREQ_SCALE (i + 1) := by decide

theorem cfreqScale_adjacent : ∀ i, i < 111 → V2.CFREQ_SCALE i ≤ V2.CFREQ_SCALE (i + 1) := by
  decide

/-- Claim C8 is false as stated for `Parameter2Frequency` of the second
part_000 variant: at the maximum parameter value `NL_MAX_PARAM = 111`
(and anything at or beyond `CFREQ_SCALE_IDX_C7 = 75`) the lookup clamps
to the entry at index 75 (209300 cHz, a C7), not to the table's last
entry `CFREQ_SCALE 111 = 1666667`. -/
theorem parameter2frequency_not_last_entry :
    V2.Parameter2Frequency V2.NL_MAX_PARAM = 209300 ∧
    V2.CFREQ_SCALE 111 = 1666667 ∧
    V2.Parameter2Frequency V2.NL_MAX_PARAM ≠ V2.CFREQ_SCALE 111 := by
  refine ⟨by decide, by decide, by decide⟩

/-- Claim C8 amended: all three table lookups are monotonically
non-decreasing and never index their table out of bounds (the result is
always a table entry); `Parameter2Clk` of HEM_NoiseLake.ino clamps every
parameter at or beyond 63 to the last `FREQ_SCALE` entry and
`Parameter2Clk` of the second part_000 variant clamps at or beyond 111
to the last `CFREQ_SCALE` entry, but `Parameter2Frequency` of that
variant clamps at or beyond `CFREQ_SCALE_IDX_C7 = 75` to the entry at
index 75, which is not the table's last entry. -/
theorem parameter_mapper_mono_and_clamp (p q : Nat) (hpq : p ≤ q) :
    Parameter2Clk p ≤ Parameter2Clk q ∧
    (63 ≤ p → Parameter2Clk p = FREQ_SCALE 63) ∧
    Parameter2Clk p ∈ FREQ_SCALE_LIST ∧
    V2.Parameter2Clk p ≤ V2.Parameter2Clk q ∧
    (111 ≤ p → V2.Parameter2Clk p = V2.CFREQ_SCALE 111) ∧
    V2.Parameter2Clk p ∈ V2.CFREQ_SCALE_LIST ∧
    V2.Parameter2Frequency p ≤ V2.Parameter2Frequency q ∧
    (V2.CFREQ_SCALE_IDX_C7 ≤ p → V2.Parameter2Frequency p = V2.CFREQ_SCALE 75) ∧
    V2.Parameter2Frequency p ∈ V2.CFREQ_SCALE_LIST := by
  refine ⟨?_, ?_, ?_, ?_, ?_, ?_, ?_, ?_, ?_⟩
  · unfold Parameter2Clk
    exact table_mono FREQ_SCALE 63 freqScale_adjacent
      (by split_ifs <;> omega) (by split_ifs <;> omega)
  · intro h
    unfold Parameter2Clk
    rcases Nat.lt_or_ge p 64 with h' | h'
    · rw [if_pos h']
      have hp63 : p = 63 := by omega
      rw [hp63]
    · rw [if_neg (by omega)]
  · unfold Parameter2Clk FREQ_SCALE
    have hlen : FREQ_SCALE_LIST.length = 64 := by decide
    refine getD_mem_of_lt _ _ _ ?_
    rw [hlen]
    split_ifs <;> omega
  · unfold V2.Parameter2Clk
    exact table_mono V2.CFREQ_SCALE 111 cfreqScale_adjacent
      (by split_ifs <;> omega) (by split_ifs <;> omega)
  · intro h
    unfold V2.Parameter2Clk
    rcases Nat.lt_or_ge p 112 with h' | h'
    · rw [if_pos h']
      have : p = 111 := by omega
      rw [this]
    · rw [if_neg (by omega)]
  · unfold V2.Parameter2Clk V2.CFREQ_SCALE
    have hlen : V2.CFREQ_SCALE_LIST.length = 112 := by decide
    refine getD_mem_of_lt _ _ _ ?_
    rw [hlen]
    split_ifs <;> omega
  · unfold V2.Parameter2Frequency
    exact table_mono V2.CFREQ_SCALE 111 cfreqScale_adjacent
      (by unfold V2.CFREQ_SCALE_IDX_C7; split_ifs <;> omega)
      (by unfold V2.CFREQ_SCALE_IDX_C7; split_ifs <;> omega)
  · intro h
    unfold V2.Parameter2Frequency V2.CFREQ_SCALE_IDX_C7
    unfold V2.CFREQ_SCALE_IDX_C7 at h
    rcases Nat.lt_or_ge 75 p with h' | h'
    · rw [if_pos h']
    · have : p = 75 := by omega
      rw [this]
      rw [if_neg (by omega)]
  · unfold V2.Parameter2Frequency V2.CFREQ_SCALE
    have hlen : V2.CFREQ_SCALE_LIST.length = 112 := by decide
    refine getD_mem_of_lt _ _ _ ?_
    rw [hlen]
    unfold V2.CFREQ_SCALE_IDX_C7
    split_ifs <;> omega

/-- Witness for the amended C8 at `p = 10`, `q = 100`. -/
theorem parameter_mapper_mono_and_clamp_witness :
    Parameter2Clk 10 ≤ Parameter2Clk 100 ∧ Parameter2Clk 100 = FREQ_SCALE 63 :=
  ⟨(parameter_mapper_mono_and_clamp 10 100 (by decide)).1,
   (parameter_mapper_mono_and_clamp 100 100 (by decide)).2.1 (by decide)⟩

/-- Witness for C3 at `phi = 1`, `dphi = 65535`, `cfreq = FSAMPLE_CHZ`,
`n = 2`. -/
theorem clock_advance_invariant_and_wrap_rate_witness :
    advance 1 65535 < CLK_PHI_MAX ∧ wrapCountN 1 65535 2 = (1 + 2 * 65535) / CLK_PHI_MAX := by
  have h := clock_advance_invariant_and_wrap_rate 1 65535 1666667 2
    ⟨0, 1, 65535, 0, 0, 0, ⟨0, 0, 0, 0⟩, ⟨0, 0, 0, 0⟩, ⟨32, 32, 1⟩, ⟨32, 32, 2⟩⟩
    false false ⟨0, 0, 0, 0⟩
    (by decide) (by decide) (by decide) (by decide) (by decide) (by decide)
  exact ⟨h.2.1, h.2.2.2.2.1⟩

theorem ediv_twoL_split (t L : Int) (hL : 0 < L) :
    t / (2 * L) = 2 * (t / (4 * L)) + t % (4 * L) / (2 * L) := by
  have h := Int.ediv_add_emod t (4 * L)
  have heq : t = t % (4 * L) + (2 * L) * (2 * (t / (4 * L))) := by linear_combination -h
  calc t / (2 * L)
      = (t % (4 * L) + (2 * L) * (2 * (t / (4 * L)))) / (2 * L) := by rw [← heq]
    _ = t % (4 * L) / (2 * L) + 2 * (t / (4 * L)) :=
        Int.add_mul_ediv_left _ _ (by omega)
    _ = 2 * (t / (4 * L)) + t % (4 * L) / (2 * L) := by ring

theorem emod_shift (r L : Int) (hL : 0 < L) (h1 : 2 * L ≤ r) (h2 : r < 4 * L) :
    r / (2 * L) = 1 ∧ r % (2 * L) = r - 2 * L := by
  have h3 := Int.add_mul_ediv_left (r - 2 * L) 1 (show (2 : Int) * L ≠ 0 by omega)
  have h4 : r - 2 * L + 2 * L * 1 = r := by ring
  rw [h4] at h3
  have h5 := Int.add_mul_emod_self_left (r - 2 * L) (2 * L) 1
  rw [h4] at h5
  constructor
  · rw [h3, Int.ediv_eq_zero_of_lt (by omega) (by omega)]
    norm_num
  · rw [h5]
    exact Int.emod_eq_of_lt (by omega) (by omega)

theorem waveFolder_core_char (s L : Int) (hL : 0 < L) :
    (if (s.tdiv (2 * L)).tmod 2 = 0
      then 2 * L - (if s.tmod (2 * L) < 0 then -(s.tmod (2 * L)) else s.tmod (2 * L))
      else if s.tmod (2 * L) < 0 then -(s.tmod (2 * L)) else s.tmod (2 * L))
    = |s % (4 * L) - 2 * L| := by
  have hdvd : (2 * L) ∣ (4 * L) := ⟨2, by ring⟩
  rcases le_or_lt 0 s with hs | hs
  · have htm : s.tmod (2 * L) = s % (2 * L) := Int.tmod_eq_emod hs (by omega)
    have htd : s.tdiv (2 * L) = s / (2 * L) := Int.tdiv_eq_ediv hs (by omega)
    have hr4_nonneg : 0 ≤ s % (4 * L) := Int.emod_nonneg s (by omega)
    have hr4_lt : s % (4 * L) < 4 * L := Int.emod_lt_of_pos s (by omega)
    have hmm : s % (2 * L) = s % (4 * L) % (2 * L) := (Int.emod_emod_of_dvd s hdvd).symm
    have hsplit := ediv_twoL_split s L hL
    rcases lt_or_le (s % (4 * L)) (2 * L) with hlt | hge
    · have hd0 : s % (4 * L) / (2 * L) = 0 := Int.ediv_eq_zero_of_lt hr4_nonneg hlt
      have hm0 : s % (4 * L) % (2 * L) = s % (4 * L) := Int.emod_eq_of_lt hr4_nonneg hlt
      have heven : (s.tdiv (2 * L)).tmod 2 = 0 := by
        rw [htd, hsplit, hd0, add_zero]
        exact Int.mul_tmod_right 2 _
      rw [if_pos heven, htm, hmm, hm0, if_neg (by omega), abs_of_nonpos (by omega)]
      ring
    · obtain ⟨hd1, hm1⟩ := emod_shift (s % (4 * L)) L hL hge hr4_lt
      have hodd : ¬ (s.tdiv (2 * L)).tmod 2 = 0 := by
        rw [htd, hsplit, hd1]
        intro hcontra
        obtain ⟨k, hk⟩ := Int.dvd_of_tmod_eq_zero hcontra
        omega
      rw [if_neg hodd, htm, hmm, hm1, if_neg (by omega), abs_of_nonneg (by omega)]
  · have hst : s = -(-s) := by ring
    have htnn : (0 : Int) ≤ -s := by omega
    have htm : s.tmod (2 * L) = -((-s) % (2 * L)) := by
      rw [hst, neg_tmod_left, Int.tmod_eq_emod htnn (by omega), neg_neg]
    have htd : s.tdiv (2 * L) = -((-s) / (2 * L)) := by
      rw [hst, Int.neg_tdiv, Int.tdiv_eq_ediv htnn (by omega), neg_neg]
    have hu4_nonneg : 0 ≤ (-s) % (4 * L) := Int.emod_nonneg (-s) (by omega)
    have hu4_lt : (-s) % (4 * L) < 4 * L := Int.emod_lt_of_pos (-s) (by omega)
    have hmm : (-s) % (2 * L) = (-s) % (4 * L) % (2 * L) :=
      (Int.emod_emod_of_dvd (-s) hdvd).symm
    have hsplit := ediv_twoL_split (-s) L hL
    have hh := Int.ediv_add_emod (-s) (4 * L)
    have ho1 : (if s.tmod (2 * L) < 0 then -(s.tmod (2 * L)) else s.tmod (2 * L))
        = (-s) % (4 * L) % (2 * L) := by
      have hnn : 0 ≤ (-s) % (4 * L) % (2 * L) := Int.emod_nonneg _ (by omega)
      rw [htm, hmm]
      split_ifs with hc <;> omega
    rcases eq_or_lt_of_le hu4_nonneg with hu0 | hu_pos
    · have hs4 : s % (4 * L) = 0 := by
        obtain ⟨k, hk⟩ := Int.dvd_of_emod_eq_zero hu0.symm
        have hsk : s = 4 * L * (-k) := by rw [hst, hk]; ring
        rw [hsk, Int.mul_emod_right]
      have hm0 : s.tmod (2 * L) = 0 := by
        rw [htm, hmm, ← hu0]
        simp
      have heven : (s.tdiv (2 * L)).tmod 2 = 0 := by
        rw [htd, hsplit, ← hu0]
        simp [neg_tmod_left, Int.mul_tmod_right]
      rw [if_pos heven, hm0, if_neg (by omega), hs4, abs_of_nonpos (by omega)]
      ring
    · have hs4 : s % (4 * L) = 4 * L - (-s) % (4 * L) := by
        have heq : s = (4 * L - (-s) % (4 * L)) + (4 * L) * (-((-s) / (4 * L)) - 1) := by
          linear_combination hh
        conv_lhs => rw [heq]
        rw [Int.add_mul_emod_self_left]
        have hb1 : (0 : Int) ≤ 4 * L - (-s) % (4 * L) := by omega
        have hb2 : 4 * L - (-s) % (4 * L) < 4 * L := by omega
        exact Int.emod_eq_of_lt hb1 hb2
      rcases lt_or_le ((-s) % (4 * L)) (2 * L) with hlt | hge
      · have hd0 : (-s) % (4 * L) / (2 * L) = 0 := Int.ediv_eq_zero_of_lt hu4_nonneg hlt
        have hm_eq : (-s) % (4 * L) % (2 * L) = (-s) % (4 * L) :=
          Int.emod_eq_of_lt hu4_nonneg hlt
        have heven : (s.tdiv (2 * L)).tmod 2 = 0 := by
          rw [htd, hsplit, hd0, add_zero]
          simp [neg_tmod_left, Int.mul_tmod_right]
        rw [if_pos heven, ho1, hm_eq, hs4, abs_of_nonneg (by omega)]
        ring
      · obtain ⟨hd1, hm_eq⟩ := emod_shift ((-s) % (4 * L)) L hL hge hu4_lt
        have hodd : ¬ (s.tdiv (2 * L)).tmod 2 = 0 := by
          rw [htd, hsplit, hd1]
          intro hcontra
          rw [neg_tmod_left] at hcontra
          have h0 : (2 * ((-s) / (4 * L)) + 1).tmod 2 = 0 := by omega
          obtain ⟨k, hk⟩ := Int.dvd_of_tmod_eq_zero h0
          omega
        rw [if_neg hodd, ho1, hm_eq, hs4, abs_of_nonpos (by omega)]
        ring

theorem waveFolder_eq_char (x L : Int) (hL : 0 < L) (hL2 : L ≤ 16383)
    (h1 : -32768 ≤ x + L) (h2 : x + L ≤ 32767) :
    WaveFolder x L = |(x + L) % (4 * L) - 2 * L| - L := by
  have hmb := tmod_bounds (x + L) (show (0 : Int) < 2 * L by omega)
  have hs : i16 (x + L) = x + L := i16_eq_self h1 h2
  have hm : i16 ((x + L).tmod (2 * L)) = (x + L).tmod (2 * L) :=
    i16_eq_self (by omega) (by omega)
  have hneg : i16 (-((x + L).tmod (2 * L))) = -((x + L).tmod (2 * L)) :=
    i16_eq_self (by omega) (by omega)
  simp only [WaveFolder, hs, hm, hneg]
  have ho1 : (0 : Int) ≤ (if (x + L).tmod (2 * L) < 0 then -((x + L).tmod (2 * L))
        else (x + L).tmod (2 * L)) ∧
      (if (x + L).tmod (2 * L) < 0 then -((x + L).tmod (2 * L))
        else (x + L).tmod (2 * L)) < 2 * L := by
    split_ifs <;> omega
  obtain ⟨ho1a, ho1b⟩ := ho1
  have hi3 : i16 (2 * L - (if (x + L).tmod (2 * L) < 0 then -((x + L).tmod (2 * L))
        else (x + L).tmod (2 * L)))
      = 2 * L - (if (x + L).tmod (2 * L) < 0 then -((x + L).tmod (2 * L))
        else (x + L).tmod (2 * L)) :=
    i16_eq_self (by omega) (by omega)
  rw [hi3]
  have hcore := waveFolder_core_char (x + L) L hL
  have hif : (0 : Int) ≤ (if ((x + L).tdiv (2 * L)).tmod 2 = 0
        then 2 * L - (if (x + L).tmod (2 * L) < 0 then -((x + L).tmod (2 * L))
          else (x + L).tmod (2 * L))
        else if (x + L).tmod (2 * L) < 0 then -((x + L).tmod (2 * L))
          else (x + L).tmod (2 * L)) ∧
      (if ((x + L).tdiv (2 * L)).tmod 2 = 0
        then 2 * L - (if (x + L).tmod (2 * L) < 0 then -((x + L).tmod (2 * L))
          else (x + L).tmod (2 * L))
        else if (x + L).tmod (2 * L) < 0 then -((x + L).tmod (2 * L))
          else (x + L).tmod (2 * L)) ≤ 2 * L := by
    split_ifs <;> omega
  obtain ⟨hifa, hifb⟩ := hif
  have hi4 : i16 ((if ((x + L).tdiv (2 * L)).tmod 2 = 0
        then 2 * L - (if (x + L).tmod (2 * L) < 0 then -((x + L).tmod (2 * L))
          else (x + L).tmod (2 * L))
        else if (x + L).tmod (2 * L) < 0 then -((x + L).tmod (2 * L))
          else (x + L).tmod (2 * L)) - L)
      = (if ((x + L).tdiv (2 * L)).tmod 2 = 0
        then 2 * L - (if (x + L).tmod (2 * L) < 0 then -((x + L).tmod (2 * L))
          else (x + L).tmod (2 * L))
        else if (x + L).tmod (2 * L) < 0 then -((x + L).tmod (2 * L))
          else (x + L).tmod (2 * L)) - L :=
    i16_eq_self (by omega) (by omega)
  rw [hi4, hcore]

/-- Claim C6 is false as stated: the modulo wavefolder is not periodic
with period `2*limit`.  At `x = 1`, `limit = 2`, `k = 1` (everything far
inside `int16_t` range) the two sides differ:
`WaveFolder 5 2 = 1` but `WaveFolder 1 2 = -1`. -/
theorem waveFolder_period_counterexample :
    WaveFolder (1 + 2 * 2 * 1) 2 = 1 ∧ WaveFolder 1 2 = -1 ∧
    WaveFolder (1 + 2 * 2 * 1) 2 ≠ WaveFolder 1 2 := by
  refine ⟨by decide, by decide, by decide⟩

/-- Claim C6 amended: the modulo wavefolder is periodic with period
`4*limit` (one full up-down triangle), not `2*limit`: for every
`limit > 0` and integer `k`, with both inputs and the intermediate
`int16_t` computations in range,
`WaveFolder (x + 4*limit*k) limit = WaveFolder x limit`. -/
theorem waveFolder_periodic (x L k : Int) (hL : 0 < L) (hL2 : L ≤ 16383)
    (h1 : -32768 ≤ x + L) (h2 : x + L ≤ 32767)
    (h3 : -32768 ≤ x + 4 * L * k + L) (h4 : x + 4 * L * k + L ≤ 32767) :
    WaveFolder (x + 4 * L * k) L = WaveFolder x L := by
  rw [waveFolder_eq_char x L hL hL2 h1 h2,
    waveFolder_eq_char (x + 4 * L * k) L hL hL2 h3 h4]
  have hshift : x + 4 * L * k + L = (x + L) + (4 * L) * k := by ring
  rw [hshift, Int.add_mul_emod_self_left]

/-- Witness for the amended C6 at `x = 5`, `limit = 7`, `k = 3`. -/
theorem waveFolder_periodic_witness :
    WaveFolder (5 + 4 * 7 * 3) 7 = WaveFolder 5 7 :=
  waveFolder_periodic 5 7 3 (by decide) (by decide) (by decide) (by decide)
    (by decide) (by decide)

theorem foldcurve_bounds : ∀ n : Nat, n ≤ 63 →
    -2047 ≤ V2.FOLDCURVE n ∧ V2.FOLDCURVE n ≤ 2047 := by decide

theorem interpY_bound_gen (x j : Int) (hx0 : 0 ≤ x) (hj0 : 0 ≤ j) (hj : j ≤ 62)
    (hcase : (128 * j ≤ x ∧ x < 128 * (j + 1)) ∨
      (V2.FOLDCURVE j.toNat = 0 ∧ V2.FOLDCURVE (j.toNat + 1) = 0)) :
    -262016 ≤ V2.FOLDCURVE j.toNat * ((j + 1) * 128 - x) +
        V2.FOLDCURVE (j.toNat + 1) * (x - j * 128) ∧
      V2.FOLDCURVE j.toNat * ((j + 1) * 128 - x) +
        V2.FOLDCURVE (j.toNat + 1) * (x - j * 128) ≤ 262016 := by
  rcases hcase with ⟨hb1, hb2⟩ | ⟨hz1, hz2⟩
  · have hF1 := foldcurve_bounds j.toNat (by omega)
    have hF2 := foldcurve_bounds (j.toNat + 1) (by omega)
    have hw1a : (0 : Int) ≤ (j + 1) * 128 - x := by nlinarith
    have hw1b : (j + 1) * 128 - x ≤ 128 := by nlinarith
    have hw2a : (0 : Int) ≤ x - j * 128 := by nlinarith
    have hw2b : x - j * 128 ≤ 128 := by nlinarith
    constructor <;>
      nlinarith [mul_le_mul_of_nonneg_right hF1.2 hw1a,
        mul_le_mul_of_nonneg_right hF1.1 hw1a,
        mul_le_mul_of_nonneg_right hF2.2 hw2a,
        mul_le_mul_of_nonneg_right hF2.1 hw2a]
  · rw [hz1, hz2]
    norm_num

theorem interp_neg_finish (x j : Int)
    (hyb : -262016 ≤ V2.FOLDCURVE j.toNat * ((j + 1) * 128 - x) +
        V2.FOLDCURVE (j.toNat + 1) * (x - j * 128) ∧
      V2.FOLDCURVE j.toNat * ((j + 1) * 128 - x) +
        V2.FOLDCURVE (j.toNat + 1) * (x - j * 128) ≤ 262016) :
    i16 ((-1 * V2.FOLDCURVE j.toNat * ((j + 1) * 128 + -x) +
        V2.FOLDCURVE (j.toNat + 1) * (-x + j * 128)).tdiv 128)
      = -(i16 ((V2.FOLDCURVE j.toNat * ((j + 1) * 128 - x) +
        V2.FOLDCURVE (j.toNat + 1) * (x - j * 128)).tdiv 128)) := by
  have hneg : -1 * V2.FOLDCURVE j.toNat * ((j + 1) * 128 + -x) +
      V2.FOLDCURVE (j.toNat + 1) * (-x + j * 128)
      = -(V2.FOLDCURVE j.toNat * ((j + 1) * 128 - x) +
        V2.FOLDCURVE (j.toNat + 1) * (x - j * 128)) := by ring
  rw [hneg, Int.neg_tdiv]
  have habs : ((V2.FOLDCURVE j.toNat * ((j + 1) * 128 - x) +
        V2.FOLDCURVE (j.toNat + 1) * (x - j * 128)).tdiv 128).natAbs
      = (V2.FOLDCURVE j.toNat * ((j + 1) * 128 - x) +
        V2.FOLDCURVE (j.toNat + 1) * (x - j * 128)).natAbs / 128 :=
    Int.natAbs_tdiv (V2.FOLDCURVE j.toNat * ((j + 1) * 128 - x) +
      V2.FOLDCURVE (j.toNat + 1) * (x - j * 128)) 128
  have hq : ((V2.FOLDCURVE j.toNat * ((j + 1) * 128 - x) +
      V2.FOLDCURVE (j.toNat + 1) * (x - j * 128)).tdiv 128).natAbs ≤ 2047 := by
    rw [habs]
    omega
  rw [i16_eq_self (by omega) (by omega), i16_eq_self (by omega) (by omega)]

theorem interp_neg_of_pos (x : Int) (hx0 : 0 < x) (hx : x ≤ 32767) :
    V2.InterpolationFolder (-x) = -V2.InterpolationFolder x := by
  have hxnn : (0 : Int) ≤ x := by omega
  have hdx : (4 * (NOISE_VALUE_MAX + 1)).tdiv ((V2.FOLDCURVE_N : Nat) : Int) = 128 := by
    decide
  have hN1 : ((V2.FOLDCURVE_N : Nat) : Int) - 1 = 63 := by decide
  have hN2 : ((V2.FOLDCURVE_N : Nat) : Int) - 2 = 62 := by decide
  simp only [V2.InterpolationFolder, hdx, hN1, hN2]
  rw [if_neg (show ¬ (0 : Int) ≤ -x by omega), if_pos hxnn]
  have hm1 : (-1 : Int) * -x = x := by ring
  rw [hm1]
  have hi0 : (x.tdiv 128) % 256 = x / 128 := by
    rw [Int.tdiv_eq_ediv hxnn (by norm_num)]
    omega
  rw [hi0]
  by_cases hc : x / 128 < 63
  · rw [if_pos hc]
    exact interp_neg_finish x (x / 128)
      (interpY_bound_gen x (x / 128) hxnn (by omega) (by omega) (Or.inl (by omega)))
  · rw [if_neg hc]
    exact interp_neg_finish x 62
      (interpY_bound_gen x 62 hxnn (by omega) (by omega) (Or.inr ⟨by decide, by decide⟩))

/-- Claim C7: the interpolated-table fold is odd-symmetric on the
`int16_t` domain (`InterpolationFolder (-x) = -InterpolationFolder x`
for `|x| ≤ 32767`), and at every bucket boundary `x = i*dx = i*128`
with `i ≤ FOLDCURVE_N - 2 = 62` it reproduces the table entry
`FOLDCURVE[i]` exactly (the truncating division is exact there). -/
theorem interpolation_folder_odd_and_boundary (x : Int) (i : Nat)
    (hx1 : -32767 ≤ x) (hx2 : x ≤ 32767) (hi : i < 63) :
    V2.InterpolationFolder (-x) = -V2.InterpolationFolder x ∧
    V2.InterpolationFolder ((i : Int) * 128) = V2.FOLDCURVE i := by
  constructor
  · rcases lt_trichotomy x 0 with hneg | hzero | hpos
    · have h := interp_neg_of_pos (-x) (by omega) (by omega)
      rw [neg_neg] at h
      omega
    · rw [hzero]
      norm_num
      decide
    · exact interp_neg_of_pos x hpos hx2
  · exact (by decide : ∀ j : Nat, j < 63 →
      V2.InterpolationFolder ((j : Int) * 128) = V2.FOLDCURVE j) i hi

/-- Witness for C7 at `x = 300`, `i = 5`. -/
theorem interpolation_folder_odd_and_boundary_witness :
    V2.InterpolationFolder (-300) = -V2.InterpolationFolder 300 ∧
    V2.InterpolationFolder ((5 : Nat) * 128) = V2.FOLDCURVE 5 :=
  interpolation_folder_odd_and_boundary 300 5 (by decide) (by decide) (by decide)

/-- Claim C2 is false as stated for the second part_000 variant, whose
Controller (part_000 lines 362-367) never reads the gate: across two
consecutive White-mode wrapping ticks with the gate reading true, the
sample fed to the filter on the second tick is the fresh draw 700, not
the 500 fed on the previous tick.  (On the first part_000 variant the
claim is not meaningful either: `_noise[2]` there is an uninitialized
per-tick local, so the gate-high sample is indeterminate.) -/
theorem gate_freeze_counterexample :
    V2.fedNoise ⟨0, 0, 65535, 100⟩ true ⟨0, 0, 0, 500, 0⟩ = 500 ∧
    V2.noiseUpdate ⟨0, 0, 65535, 100⟩ ⟨0, 0, 0, 500, 0⟩ = ⟨0, 0, 65535, 500⟩ ∧
    V2.fedNoise ⟨0, 0, 65535, 500⟩ true ⟨0, 0, 0, 700, 0⟩ = 700 ∧
    (700 : Int) ≠ 500 := by
  refine ⟨by decide, by decide, by decide, by decide⟩

/-- Claim C4 is false as stated for the first part_000 variant, where
BitFlip XORs the unbiased value (part_000 lines 75-76,
`noise ^= (1 << random(0, 12))`) and the claimed bias-XOR-unbias is
absent: from the reachable noise 0 (`Start` draws from
`[0, NOISE_VALUE_MAX)`) a flip of bit 0 yields 1, and the biased
representations 0 + 4095 = 4095 and 1 + 4095 = 4096 XOR to 8191, which
has bit 0 and bit 1 (and eleven more) set — they differ in thirteen bit
positions, not exactly one. -/
theorem bitflip_unbiased_counterexample :
    (V1.noiseUpdate NOISE_MODE_BITFLIP 0 65535 0 0 0).2 = 1 ∧
    (((1 : Int) + V1.NOISE_VALUE_MAX).toNat ^^^
      ((0 : Int) + V1.NOISE_VALUE_MAX).toNat) = 8191 ∧
    Nat.testBit 8191 0 = true ∧
    Nat.testBit 8191 1 = true := by
  refine ⟨by decide, by decide, by decide, by decide⟩

end NoiseLake
